import Mathlib

/-!
Verification of the tanstack-router sources: the file-based route generator
(`packages/router-generator/src/generator.ts`) and the match-rendering layer
(`packages/react-router/src/Matches.tsx`, `useBlocker`).

Strings of the TypeScript source are embedded as lists of characters (`Str`),
so that every operation is structurally recursive and evaluates inside the
kernel.  Each definition mirrors one function of the source; doc comments cite
the source location.
-/

namespace TSR

/-- Character-list strings: the embedding of JavaScript strings. -/
abbrev Str := List Char

/-- Coerce a Lean string literal to the embedding. -/
def lit (s : String) : Str := s.data

/-! ### multiSortBy (generator.ts lines 503-531)

The source sorts `arr.map((d, i) => [d, i])` with a comparator that walks the
accessor list: `undefined` accessor values order after defined ones, equal
values fall through to the next accessor, and a full tie is broken by the
original index (`ai - bi`).  The accessor return type (`any` in TypeScript,
used homogeneously at each call site) is embedded as `Option β` over a linear
order `β`, `none` standing for `undefined`.  Because the comparator together
with the index tie-break is a total order on the index-annotated pairs, the
sorted result is unique; we realize it with insertion sort. -/

/-- Pair each element with its original index; mirrors `arr.map((d, i) => [d, i])`. -/
def withIdx {α : Type} : List α → Nat → List (α × Nat)
  | [], _ => []
  | a :: as, i => (a, i) :: withIdx as (i + 1)

/-- The accessor loop of the comparator in `multiSortBy` (generator.ts 510-526):
`undefined` vs `undefined` falls through, `undefined` vs defined returns 1
(`Ordering.gt`), defined vs `undefined` returns -1 (in JS `ao > undefined` is
false), equal values fall through, otherwise `ao > bo ? 1 : -1`. -/
def multiCmp {α β : Type} [LinearOrder β]
    (accessors : List (α → Option β)) (a b : α) : Ordering :=
  match accessors with
  | [] => .eq
  | f :: rest =>
    match f a, f b with
    | none, none => multiCmp rest a b
    | none, some _ => .gt
    | some _, none => .lt
    | some x, some y =>
      if x = y then multiCmp rest a b else if x > y then .gt else .lt

/-- The full comparator is at most zero: either the accessor loop decides `-1`,
or it falls through entirely and the index difference `ai - bi` is at most
zero (generator.ts 528). -/
def pairLe {α β : Type} [LinearOrder β] (accessors : List (α → Option β))
    (p q : α × Nat) : Prop :=
  multiCmp accessors p.1 q.1 = Ordering.lt
  ∨ (multiCmp accessors p.1 q.1 = Ordering.eq ∧ p.2 ≤ q.2)

instance pairLeDecidable {α β : Type} [LinearOrder β]
    (accessors : List (α → Option β)) : DecidableRel (pairLe accessors) := by
  intro p q
  unfold pairLe
  infer_instance

/-- The index-annotated sorted list produced by `multiSortBy` before the final
projection `.map(([d]) => d)` (generator.ts 530). -/
def multiSortByIdx {α β : Type} [LinearOrder β]
    (arr : List α) (accessors : List (α → Option β)) : List (α × Nat) :=
  List.insertionSort (pairLe accessors) (withIdx arr 0)

/-- Embedding of `multiSortBy` (generator.ts 503-531). -/
def multiSortBy {α β : Type} [LinearOrder β]
    (arr : List α) (accessors : List (α → Option β)) : List α :=
  (multiSortByIdx arr accessors).map Prod.fst

theorem withIdx_map_fst {α : Type} (l : List α) (i : Nat) :
    (withIdx l i).map Prod.fst = l := by
  induction l generalizing i with
  | nil => rfl
  | cons a as ih => simp [withIdx, ih]

theorem multiCmp_swap {α β : Type} [LinearOrder β]
    (accessors : List (α → Option β)) (a b : α) :
    multiCmp accessors a b = (multiCmp accessors b a).swap := by
  induction accessors with
  | nil => rfl
  | cons f rest ih =>
    cases hfa : f a <;> cases hfb : f b <;>
      simp only [multiCmp, hfa, hfb, Ordering.swap]
    · exact ih
    case some.some x y =>
      rcases lt_trichotomy x y with h | h | h
      · rw [if_neg h.ne, if_neg (not_lt.mpr h.le), if_neg h.ne.symm,
          if_pos h]
      · subst h
        rw [if_pos rfl, if_pos rfl]
        exact ih
      · rw [if_neg h.ne.symm, if_pos h, if_neg h.ne, if_neg (not_lt.mpr h.le)]

theorem multiCmp_eq_iff {α β : Type} [LinearOrder β]
    (accessors : List (α → Option β)) (a b : α) :
    multiCmp accessors a b = Ordering.eq ↔ ∀ f ∈ accessors, f a = f b := by
  induction accessors with
  | nil => simp [multiCmp]
  | cons f rest ih =>
    cases hfa : f a <;> cases hfb : f b <;>
      simp only [multiCmp, hfa, hfb]
    · simp only [List.mem_cons, forall_eq_or_imp, hfa, hfb, true_and]
      exact ih
    · simp [hfa, hfb]
    · simp [hfa, hfb]
    case some.some x y =>
      by_cases hxy : x = y
      · subst hxy
        simp only [if_pos rfl, List.mem_cons, forall_eq_or_imp, hfa, hfb,
          true_and]
        exact ih
      · rw [if_neg hxy]
        constructor
        · intro h
          split at h <;> simp_all
        · intro h
          have := h f (List.mem_cons_self f rest)
          rw [hfa, hfb] at this
          simp_all

theorem multiCmp_cons_nn {α β : Type} [LinearOrder β] {f : α → Option β}
    (rest : List (α → Option β)) {a b : α}
    (ha : f a = none) (hb : f b = none) :
    multiCmp (f :: rest) a b = multiCmp rest a b := by
  simp [multiCmp, ha, hb]

theorem multiCmp_cons_ns {α β : Type} [LinearOrder β] {f : α → Option β}
    (rest : List (α → Option β)) {a b : α} {y : β}
    (ha : f a = none) (hb : f b = some y) :
    multiCmp (f :: rest) a b = Ordering.gt := by
  simp [multiCmp, ha, hb]

theorem multiCmp_cons_sn {α β : Type} [LinearOrder β] {f : α → Option β}
    (rest : List (α → Option β)) {a b : α} {x : β}
    (ha : f a = some x) (hb : f b = none) :
    multiCmp (f :: rest) a b = Ordering.lt := by
  simp [multiCmp, ha, hb]

theorem multiCmp_cons_ss {α β : Type} [LinearOrder β] {f : α → Option β}
    (rest : List (α → Option β)) {a b : α} {x y : β}
    (ha : f a = some x) (hb : f b = some y) :
    multiCmp (f :: rest) a b
      = if x = y then multiCmp rest a b
        else if x > y then Ordering.gt else Ordering.lt := by
  simp [multiCmp, ha, hb]

theorem multiCmp_congr_right {α β : Type} [LinearOrder β]
    (accessors : List (α → Option β)) (a b c : α)
    (h : ∀ f ∈ accessors, f b = f c) :
    multiCmp accessors a b = multiCmp accessors a c := by
  induction accessors with
  | nil => rfl
  | cons f rest ih =>
    have hf : f b = f c := h f (List.mem_cons_self f rest)
    have hrest : ∀ g ∈ rest, g b = g c := fun g hg => h g (List.mem_cons_of_mem f hg)
    cases hfa : f a <;> cases hfb : f b
    · rw [multiCmp_cons_nn rest hfa hfb, multiCmp_cons_nn rest hfa (hf ▸ hfb),
        ih hrest]
    case none.some y =>
      rw [multiCmp_cons_ns rest hfa hfb, multiCmp_cons_ns rest hfa (hf ▸ hfb)]
    case some.none x =>
      rw [multiCmp_cons_sn rest hfa hfb, multiCmp_cons_sn rest hfa (hf ▸ hfb)]
    case some.some x y =>
      rw [multiCmp_cons_ss rest hfa hfb, multiCmp_cons_ss rest hfa (hf ▸ hfb),
        ih hrest]

theorem multiCmp_lt_trans {α β : Type} [LinearOrder β]
    (accessors : List (α → Option β)) (a b c : α)
    (hab : multiCmp accessors a b = Ordering.lt)
    (hbc : multiCmp accessors b c = Ordering.lt) :
    multiCmp accessors a c = Ordering.lt := by
  induction accessors with
  | nil => simp [multiCmp] at hab
  | cons f rest ih =>
    cases hfa : f a <;> cases hfb : f b <;> cases hfc : f c
    · rw [multiCmp_cons_nn rest hfa hfb] at hab
      rw [multiCmp_cons_nn rest hfb hfc] at hbc
      rw [multiCmp_cons_nn rest hfa hfc]
      exact ih hab hbc
    case none.none.some z =>
      rw [multiCmp_cons_ns rest hfb hfc] at hbc
      exact Ordering.noConfusion hbc
    case none.some.none y =>
      rw [multiCmp_cons_ns rest hfa hfb] at hab
      exact Ordering.noConfusion hab
    case none.some.some y z =>
      rw [multiCmp_cons_ns rest hfa hfb] at hab
      exact Ordering.noConfusion hab
    case some.none.none x =>
      exact multiCmp_cons_sn rest hfa hfc
    case some.none.some x z =>
      rw [multiCmp_cons_ns rest hfb hfc] at hbc
      exact Ordering.noConfusion hbc
    case some.some.none x y =>
      exact multiCmp_cons_sn rest hfa hfc
    case some.some.some x y z =>
      rw [multiCmp_cons_ss rest hfa hfb] at hab
      rw [multiCmp_cons_ss rest hfb hfc] at hbc
      rw [multiCmp_cons_ss rest hfa hfc]
      by_cases hxy : x = y
      · subst hxy
        rw [if_pos rfl] at hab
        by_cases hyz : x = z
        · subst hyz
          rw [if_pos rfl] at hbc ⊢
          exact ih hab hbc
        · rw [if_neg hyz] at hbc ⊢
          exact hbc
      · rw [if_neg hxy] at hab
        have hxlty : x < y := by
          by_contra hcon
          rw [if_pos (lt_of_le_of_ne (not_lt.mp hcon) (Ne.symm hxy))] at hab
          exact Ordering.noConfusion hab
        by_cases hyz : y = z
        · subst hyz
          rw [if_neg hxy, if_neg (not_lt.mpr hxlty.le)]
        · have hyltz : y < z := by
            by_contra hcon
            rw [if_neg hyz,
              if_pos (lt_of_le_of_ne (not_lt.mp hcon) (Ne.symm hyz))] at hbc
            exact Ordering.noConfusion hbc
          have hxltz : x < z := hxlty.trans hyltz
          rw [if_neg hxltz.ne, if_neg (not_lt.mpr hxltz.le)]

theorem pairLe_trans {α β : Type} [LinearOrder β]
    (accessors : List (α → Option β)) (p q r : α × Nat)
    (hpq : pairLe accessors p q) (hqr : pairLe accessors q r) :
    pairLe accessors p r := by
  rcases hpq with h1 | ⟨h1, hi1⟩ <;> rcases hqr with h2 | ⟨h2, hi2⟩
  · exact Or.inl (multiCmp_lt_trans accessors _ _ _ h1 h2)
  · left
    rw [multiCmp_congr_right accessors p.1 r.1 q.1
      (fun f hf => ((multiCmp_eq_iff accessors q.1 r.1).mp h2 f hf).symm)]
    exact h1
  · left
    rw [show multiCmp accessors p.1 r.1 = multiCmp accessors q.1 r.1 from ?_]
    · exact h2
    · rw [multiCmp_swap accessors p.1 r.1, multiCmp_swap accessors q.1 r.1]
      congr 1
      exact multiCmp_congr_right accessors r.1 p.1 q.1
        ((multiCmp_eq_iff accessors p.1 q.1).mp h1)
  · right
    constructor
    · rw [multiCmp_congr_right accessors p.1 r.1 q.1
        (fun f hf => ((multiCmp_eq_iff accessors q.1 r.1).mp h2 f hf).symm)]
      exact h1
    · exact hi1.trans hi2

theorem pairLe_total {α β : Type} [LinearOrder β]
    (accessors : List (α → Option β)) (p q : α × Nat) :
    pairLe accessors p q ∨ pairLe accessors q p := by
  cases h : multiCmp accessors p.1 q.1 with
  | lt => exact Or.inl (Or.inl h)
  | gt =>
    right
    left
    rw [multiCmp_swap accessors q.1 p.1, h]
    rfl
  | eq =>
    have h2 : multiCmp accessors q.1 p.1 = Ordering.eq := by
      rw [multiCmp_swap accessors q.1 p.1, h]
      rfl
    rcases Nat.le_total p.2 q.2 with hle | hle
    · exact Or.inl (Or.inr ⟨h, hle⟩)
    · exact Or.inr (Or.inr ⟨h2, hle⟩)

theorem multiSortByIdx_sorted {α β : Type} [LinearOrder β]
    (arr : List α) (accessors : List (α → Option β)) :
    (multiSortByIdx arr accessors).Pairwise (pairLe accessors) := by
  haveI : IsTotal (α × Nat) (pairLe accessors) := ⟨pairLe_total accessors⟩
  haveI : IsTrans (α × Nat) (pairLe accessors) := ⟨pairLe_trans accessors⟩
  exact List.sorted_insertionSort (pairLe accessors) (withIdx arr 0)

theorem multiSortByIdx_perm {α β : Type} [LinearOrder β]
    (arr : List α) (accessors : List (α → Option β)) :
    (multiSortByIdx arr accessors).Perm (withIdx arr 0) :=
  List.perm_insertionSort (pairLe accessors) (withIdx arr 0)

theorem multiSortBy_perm {α β : Type} [LinearOrder β]
    (arr : List α) (accessors : List (α → Option β)) :
    (multiSortBy arr accessors).Perm arr := by
  have h := (multiSortByIdx_perm arr accessors).map Prod.fst
  rw [withIdx_map_fst] at h
  exact h

theorem multiCmp_prefix_tie {α β : Type} [LinearOrder β]
    (fs₁ fs₂ : List (α → Option β)) (f : α → Option β) (a b : α)
    (htie : ∀ g ∈ fs₁, g a = g b) :
    multiCmp (fs₁ ++ f :: fs₂) a b = multiCmp (f :: fs₂) a b := by
  induction fs₁ with
  | nil => rfl
  | cons g rest ih =>
    have hg : g a = g b := htie g (List.mem_cons_self g rest)
    have hrest : ∀ h ∈ rest, h a = h b := fun h hh => htie h (List.mem_cons_of_mem g hh)
    cases hga : g a with
    | none =>
      rw [List.cons_append]
      simp only [multiCmp, hga, hga ▸ hg.symm]
      exact ih hrest
    | some x =>
      rw [List.cons_append]
      simp only [multiCmp, hga, hga ▸ hg.symm, if_pos rfl]
      exact ih hrest

/-- Claim C10: for every input array and every list of accessor functions,
`multiSortBy` returns a permutation of the input that is a stable sort: the
output is the index projection of a sorted annotation of the input where, for
any two items in output order, the comparator never says the earlier one is
strictly greater; items whose accessor values agree under every accessor keep
their original relative order (ties broken by original index); and at the
first accessor that distinguishes two items an item with an undefined
(`none`) accessor value never precedes one with a defined value. -/
theorem multiSortBy_stable_sort {α β : Type} [LinearOrder β]
    (arr : List α) (accessors : List (α → Option β)) :
    (multiSortBy arr accessors).Perm arr
    ∧ multiSortBy arr accessors = (multiSortByIdx arr accessors).map Prod.fst
    ∧ (multiSortByIdx arr accessors).Perm (withIdx arr 0)
    ∧ (multiSortByIdx arr accessors).Pairwise (fun p q =>
        multiCmp accessors p.1 q.1 ≠ Ordering.gt
        ∧ ((∀ f ∈ accessors, f p.1 = f q.1) → p.2 ≤ q.2)
        ∧ ∀ fs₁ f fs₂, accessors = fs₁ ++ f :: fs₂ →
            (∀ g ∈ fs₁, g p.1 = g q.1) → f p.1 = none → f q.1 = none) := by
  refine ⟨multiSortBy_perm arr accessors, rfl,
    multiSortByIdx_perm arr accessors, ?_⟩
  refine (multiSortByIdx_sorted arr accessors).imp ?_
  intro p q hle
  refine ⟨?_, ?_, ?_⟩
  · rcases hle with h | ⟨h, _⟩ <;> simp [h]
  · intro htie
    rcases hle with h | ⟨h, hi⟩
    · rw [(multiCmp_eq_iff accessors p.1 q.1).mpr htie] at h
      exact Ordering.noConfusion h
    · exact hi
  · intro fs₁ f fs₂ heq htie hnone
    cases hyq : f q.1 with
    | none => rfl
    | some y =>
      have hgt : multiCmp accessors p.1 q.1 = Ordering.gt := by
        rw [heq, multiCmp_prefix_tie fs₁ fs₂ f p.1 q.1 htie,
          multiCmp_cons_ns fs₂ hnone hyq]
      rcases hle with h | ⟨h, _⟩ <;> rw [h] at hgt <;>
        exact Ordering.noConfusion hgt

/-! ### Generator string utilities (generator.ts 480-548)

JavaScript string operations are embedded as structurally recursive functions
on character lists, so every pipeline below evaluates inside the kernel. -/

/-- Split at every character satisfying `p`; mirrors `s.split(sep)` in
JavaScript, where the empty string splits into one empty segment. -/
def splitOnP (p : Char → Bool) : Str → List Str
  | [] => [[]]
  | a :: rest =>
    if p a then [] :: splitOnP p rest
    else
      match splitOnP p rest with
      | [] => [[a]]
      | s :: ss => (a :: s) :: ss

/-- Split at a single separator character; mirrors `s.split(c)`. -/
def splitOnC (c : Char) : Str → List Str :=
  splitOnP (fun a => a = c)

/-- Join segments with a separator character; mirrors `segments.join(c)`. -/
def joinC (c : Char) : List Str → Str
  | [] => []
  | [s] => s
  | s :: s₂ :: rest => s ++ c :: joinC c (s₂ :: rest)

theorem splitOnP_ne_nil (p : Char → Bool) (s : Str) : splitOnP p s ≠ [] := by
  cases s with
  | nil => simp [splitOnP]
  | cons a rest =>
    by_cases h : p a
    · simp [splitOnP, h]
    · simp only [splitOnP, h, Bool.false_eq_true, if_false]
      cases splitOnP p rest <;> simp

theorem joinC_splitOnC (c : Char) (s : Str) : joinC c (splitOnC c s) = s := by
  induction s with
  | nil => rfl
  | cons a rest ih =>
    by_cases h : a = c
    · simp only [splitOnC, splitOnP, h, if_pos rfl]
      rcases hsplit : splitOnP (fun a => a = c) rest with _ | ⟨s₀, ss⟩
      · exact absurd hsplit (splitOnP_ne_nil _ rest)
      · simp only [joinC]
        rw [splitOnC, hsplit] at ih
        rw [List.nil_append, ih]
    · simp only [splitOnC, splitOnP, h, Bool.false_eq_true, if_false]
      rcases hsplit : splitOnP (fun a => a = c) rest with _ | ⟨s₀, ss⟩
      · exact absurd hsplit (splitOnP_ne_nil _ rest)
      · rw [splitOnC, hsplit] at ih
        cases ss with
        | nil => simp only [joinC]; simp only [joinC] at ih; rw [ih]
        | cons s₁ ss₂ =>
          simp only [joinC]
          simp only [joinC] at ih
          rw [List.cons_append, ih]

/-- Embedding of `removeExt` (generator.ts 493-495): the portion before the
last dot; the whole string when there is no dot, or when the dot is the first
character (JS `substring(0, 0)` is the empty string, which is falsy, so `|| d`
restores the input). -/
def removeExt (s : Str) : Str :=
  match s.reverse.dropWhile (fun c => c ≠ '.') with
  | [] => s
  | _ :: tail => if tail = [] then s else tail.reverse

/-- Modelled from the spec: `cleanPath` comes from the generator's `./utils`
module, which is absent from the provided sources; per the spec's route-id
derivation (a normalized path built from the relative file path) it collapses
runs of `/` into a single `/`. -/
def cleanPathAux (prev : Char) : Str → Str
  | [] => []
  | a :: rest =>
    if prev = '/' ∧ a = '/' then cleanPathAux prev rest
    else a :: cleanPathAux a rest

/-- Modelled from the spec: see `cleanPathAux`; duplicate-slash normalization
of a path. -/
def cleanPath : Str → Str
  | [] => []
  | a :: rest => a :: cleanPathAux a rest

/-- Paths with no two adjacent slashes are fixed points of `cleanPath`. -/
def noDoubleSlash : Str → Bool
  | [] => true
  | [_] => true
  | a :: b :: rest => !(a = '/' && b = '/') && noDoubleSlash (b :: rest)

theorem cleanPathAux_id (prev : Char) (s : Str)
    (h : noDoubleSlash (prev :: s) = true) : cleanPathAux prev s = s := by
  induction s generalizing prev with
  | nil => rfl
  | cons a rest ih =>
    rw [noDoubleSlash, Bool.and_eq_true] at h
    have hna : ¬(prev = '/' ∧ a = '/') := by
      intro ⟨h1, h2⟩
      rw [h1, h2] at h
      simp at h
    rw [cleanPathAux, if_neg hna, ih a h.2]

theorem cleanPath_id (s : Str) (h : noDoubleSlash s = true) :
    cleanPath s = s := by
  cases s with
  | nil => rfl
  | cons a rest => rw [cleanPath, cleanPathAux_id a rest h]

/-- Embedding of the first replace in `removeUnderscores` (generator.ts 539):
the regex `(^_|_$)` removes one leading underscore, or else one trailing
underscore. -/
def stripOneEdgeUnderscore (s : Str) : Str :=
  match s with
  | [] => []
  | a :: rest =>
    if a = '_' then rest
    else if s.getLast? = some '_' then s.dropLast else s

/-- Embedding of the second replace in `removeUnderscores` (generator.ts 539):
the first occurrence of `/_` or `_/` becomes `/`. -/
def replaceFirstUnderscoreSeg : Str → Str
  | [] => []
  | [a] => [a]
  | a :: b :: rest =>
    if a = '/' ∧ b = '_' then '/' :: rest
    else if a = '_' ∧ b = '/' then '/' :: rest
    else a :: replaceFirstUnderscoreSeg (b :: rest)

/-- Embedding of `removeUnderscores` (generator.ts 538-540). -/
def removeUnderscores (s : Str) : Str :=
  replaceFirstUnderscoreSeg (stripOneEdgeUnderscore s)

/-- Embedding of `capitalize` (generator.ts 533-536). -/
def capitalize : Str → Str
  | [] => []
  | a :: rest => a.toUpper :: rest

/-- Embedding of the global replace `/\/\$\//g → '/splat/'` inside
`routePathToVariable` (generator.ts 483): scanning resumes after each match. -/
def replaceSplatSegments : Str → Str
  | '/' :: '$' :: '/' :: rest => lit "/splat/" ++ replaceSplatSegments rest
  | a :: rest => a :: replaceSplatSegments rest
  | [] => []

/-- ASCII letters and digits, the characters kept by the final filter of
`routePathToVariable` (generator.ts 489). -/
def isAlphaNum (c : Char) : Bool :=
  (('a' ≤ c && c ≤ 'z') || ('A' ≤ c && c ≤ 'Z') || ('0' ≤ c && c ≤ '9'))

/-- Embedding of `routePathToVariable` (generator.ts 480-491). -/
def routePathToVariable (d : Str) : Str :=
  let s := removeUnderscores d
  let s := replaceSplatSegments s
  let s := if s.getLast? = some '$' then s.dropLast ++ lit "splat" else s
  let s := s.filter (fun c => c ≠ '$')
  let segs := splitOnP (fun c => c = '/' || c = '-') s
  let s :=
    match segs with
    | [] => []
    | h :: t => h ++ (t.map capitalize).flatten
  s.filter isAlphaNum

theorem joinC_splitOnC_map (s : Str) :
    joinC '/' (splitOnC '.' s) = s.map (fun c => if c = '.' then '/' else c) := by
  induction s with
  | nil => rfl
  | cons a rest ih =>
    by_cases h : a = '.'
    · simp only [splitOnC, splitOnP, h, if_pos rfl, List.map_cons]
      rcases hsplit : splitOnP (fun x => decide (x = '.')) rest with _ | ⟨s₀, ss⟩
      · exact absurd hsplit (splitOnP_ne_nil _ rest)
      · simp only [joinC]
        rw [splitOnC, hsplit] at ih
        rw [List.nil_append, ih]
        simp
    · simp only [splitOnC, splitOnP, h, Bool.false_eq_true, if_false,
        List.map_cons, if_neg h]
      rcases hsplit : splitOnP (fun x => decide (x = '.')) rest with _ | ⟨s₀, ss⟩
      · exact absurd hsplit (splitOnP_ne_nil _ rest)
      · rw [splitOnC, hsplit] at ih
        cases ss with
        | nil => simp only [joinC]; simp only [joinC] at ih; rw [ih]
        | cons s₁ ss₂ =>
          simp only [joinC]
          simp only [joinC] at ih
          rw [List.cons_append, ih]

/-! ### Route nodes (generator.ts 10-29, 62-101)

The source stores a mutable `parent` back-reference and a `children` array on
each node; following the arena advice of the spec's design notes, the parent
link is embedded as the parent's `routePath` (the key `hasParentRoute`
matches on), and tree membership is tracked by the generator state below. -/

structure RouteNode where
  filePath : Str
  routePath : Str
  variableName : Str
  isRoute : Bool := false
  isComponent : Bool := false
  isErrorComponent : Bool := false
  isPendingComponent : Bool := false
  isNotFoundComponent : Bool := false
  isLoader : Bool := false
  isVirtual : Bool := false
  parentPath : Option Str := none
  path : Str := []
  isNonPath : Bool := false
  isNonLayout : Bool := false
  cleanedPath : Str := []
deriving DecidableEq, Repr

/-- The keyword alternatives of the suffix regex at generator.ts 79-82, in the
order the regex lists them. -/
def aspectKeywords : List Str :=
  [lit "component", lit "errorComponent", lit "pendingComponent",
   lit "notFoundComponent", lit "loader", lit "route"]

/-- Embedding of the suffix strip
`routePath.replace(/\/(component|...|route)$/, '')` (generator.ts 79-82):
remove one trailing `/<keyword>` segment when present. -/
def stripAspectEnd (s : Str) : Str :=
  match aspectKeywords.find? (fun kw => ('/' :: kw).isSuffixOf s) with
  | some kw => s.take (s.length - (kw.length + 1))
  | none => s

/-- Embedding of the per-file body of `getRouteNodes` (generator.ts 62-101):
derive `routePath`, `variableName` and the aspect flags from the relative
file path of one qualifying route file. -/
def makeRouteNode (filePath : Str) : RouteNode :=
  let filePathNoExt := removeExt filePath
  let routePath0 := cleanPath ('/' :: joinC '/' (splitOnC '.' filePathNoExt))
  let routePath0 := if routePath0 = [] then [] else routePath0
  let variableName := routePathToVariable routePath0
  let isRoute := (lit "/route").isSuffixOf routePath0
  let isComponent := (lit "/component").isSuffixOf routePath0
  let isErrorComponent := (lit "/errorComponent").isSuffixOf routePath0
  let isPendingComponent := (lit "/pendingComponent").isSuffixOf routePath0
  let isNotFoundComponent := (lit "/notFoundComponent").isSuffixOf routePath0
  let isLoader := (lit "/loader").isSuffixOf routePath0
  let routePath1 := stripAspectEnd routePath0
  let routePath2 := if routePath1 = lit "index" then lit "/" else routePath1
  let routePath3 :=
    let t :=
      if (lit "/index").isSuffixOf routePath2
      then routePath2.take (routePath2.length - 6) ++ ['/']
      else routePath2
    if t = [] then lit "/" else t
  { filePath := filePath
    routePath := routePath3
    variableName := variableName
    isRoute := isRoute
    isComponent := isComponent
    isErrorComponent := isErrorComponent
    isPendingComponent := isPendingComponent
    isNotFoundComponent := isNotFoundComponent
    isLoader := isLoader }

/-- Route path exactly as claim C6 words it: `/` plus the relative path with
its extension removed, `.` separators replaced by `/`, one trailing aspect
segment stripped, and a bare or trailing `index` segment normalized to `/`
(an empty remainder denotes the root `/`). -/
def claimRoutePath (filePath : Str) : Str :=
  let base := '/' :: (removeExt filePath).map (fun c => if c = '.' then '/' else c)
  let base := stripAspectEnd base
  let base := if base = lit "index" then lit "/" else base
  let base :=
    if (lit "/index").isSuffixOf base
    then base.take (base.length - 6) ++ ['/']
    else base
  if base = [] then lit "/" else base

theorem makeRouteNode_routePath_eq_claim (filePath : Str)
    (h : noDoubleSlash
      ('/' :: (removeExt filePath).map (fun c => if c = '.' then '/' else c))
      = true) :
    (makeRouteNode filePath).routePath = claimRoutePath filePath := by
  simp only [makeRouteNode, claimRoutePath]
  rw [joinC_splitOnC_map, cleanPath_id _ h]
  rw [if_neg (List.cons_ne_nil '/' _)]

/-! ### Building the route tree (generator.ts 137-244, 550-578) -/

/-- Embedding of `rootPathId` (generator.ts 8). -/
def rootPathId : Str := lit "__root"

/-- Sort keys for the source's heterogeneous accessors (a `number` or a
`string` at each call site), packed into a lexicographic sum so that they
carry a linear order. -/
abbrev JsVal := Int ⊕ₗ Str

/-- Numeric sort key. -/
def jsNum (n : Int) : JsVal := toLex (Sum.inl n)

/-- String sort key. -/
def jsStr (s : Str) : JsVal := toLex (Sum.inr s)

/-- Embedding of the sort and root filter inside `hasParentRoute`
(generator.ts 558-561): by descending `routePath` length
(`d.routePath!.length * -1`), then by `variableName`. -/
def hasParentSorted (routes : List RouteNode) : List RouteNode :=
  (multiSortBy routes
    [fun d => some (jsNum ((d.routePath.length : Int) * (-1))),
     fun d => some (jsStr d.variableName)]).filter
    (fun d => decide (d.routePath ≠ '/' :: rootPathId))

/-- Fuel-indexed embedding of `hasParentRoute` (generator.ts 550-578).  The
source recurses on the path with its last `/`-segment popped; here the path is
carried as its segment list (the segments of a `split('/')` are slash-free, so
re-splitting the re-joined shorter path gives exactly `segs.dropLast`), and
the segment count is the fuel bounding that recursion. -/
def hasParentRouteAux (routes : List RouteNode) : Nat → List Str → Option RouteNode
  | 0, _ => none
  | fuel + 1, segs =>
    let p := joinC '/' segs
    if p = [] ∨ p = ['/'] then none
    else
      match (hasParentSorted routes).find? (fun route =>
          decide (route.routePath ≠ ['/'])
          && (route.routePath ++ ['/']).isPrefixOf p
          && decide (route.routePath ≠ p)) with
      | some route => some route
      | none => hasParentRouteAux routes fuel segs.dropLast

/-- Embedding of `hasParentRoute` (generator.ts 550-578). -/
def hasParentRoute (routes : List RouteNode) (routePathToCheck : Str) :
    Option RouteNode :=
  hasParentRouteAux routes (splitOnC '/' routePathToCheck).length
    (splitOnC '/' routePathToCheck)

/-- Modelled from the spec: `trimPathLeft` comes from the generator's
`./utils` module, absent from the sources; it trims the leading run of
slashes of any path other than `/` itself. -/
def trimPathLeft (p : Str) : Str :=
  if p = ['/'] then p else p.dropWhile (fun c => c = '/')

/-- Embedding of `node.routePath?.replace(node.parent.routePath!, '')`
(generator.ts 181): JavaScript `String.replace` with a string pattern removes
only the first occurrence. -/
def removeFirstOccurrence (s pat : Str) : Str :=
  match s with
  | [] => []
  | c :: rest =>
    if pat.isPrefixOf (c :: rest) then (c :: rest).drop pat.length
    else c :: removeFirstOccurrence rest pat

/-- Kinds of `routePiecesByPath` entries (generator.ts 117-123). -/
inductive PieceKind
  | loader
  | errorComponent
  | pendingComponent
  | notFoundComponent
  | component
deriving DecidableEq, Repr

/-- Mutable state of `generator` while it folds `handleNode` over the sorted
nodes (generator.ts 169-244): processed nodes (`routeNodes`), top-level tree
entries (`routeTree`), and the `routePiecesByPath` assignments in order. -/
structure GenState where
  routeNodes : List RouteNode := []
  routeTree : List RouteNode := []
  routePieces : List (Str × PieceKind × RouteNode) := []
deriving DecidableEq, Repr

/-- Kind under which an aspect node is recorded in `routePiecesByPath`,
following the conditional chain at generator.ts 206-216. -/
def pieceKind (n : RouteNode) : PieceKind :=
  if n.isLoader then .loader
  else if n.isErrorComponent then .errorComponent
  else if n.isPendingComponent then .pendingComponent
  else if n.isNotFoundComponent then .notFoundComponent
  else .component

/-- The aspect-file test of generator.ts 197-201. -/
def isAspect (n : RouteNode) : Bool :=
  n.isLoader || n.isComponent || n.isErrorComponent
    || n.isPendingComponent || n.isNotFoundComponent

/-- Parent lookup and per-node field assignment at the head of `handleNode`
(generator.ts 176-192).  The parent back-reference is embedded as the
parent's `routePath`. -/
def prepareNode (s : GenState) (node : RouteNode) : RouteNode :=
  let parentRoute := hasParentRoute s.routeNodes node.routePath
  let nodePath :=
    match parentRoute with
    | some p =>
      let r := removeFirstOccurrence node.routePath p.routePath
      if r = [] then ['/'] else r
    | none => node.routePath
  let trimmedPath := trimPathLeft nodePath
  let first := (splitOnC '/' trimmedPath).headD trimmedPath
  { node with
    parentPath := parentRoute.map (fun p => p.routePath)
    path := nodePath
    isNonPath := decide (first.head? = some '_')
    isNonLayout := decide (first.getLast? = some '_')
    cleanedPath := removeUnderscores nodePath }

/-- Tree insertion at the tail of `handleNode` (generator.ts 234-241): the
prepared node joins its parent's children (embedded by its `parentPath`
field in `routeNodes`) or the top-level `routeTree`. -/
def insertNode (s : GenState) (node0 : RouteNode) : GenState :=
  let node := prepareNode s node0
  match node.parentPath with
  | some _ => { s with routeNodes := s.routeNodes ++ [node] }
  | none =>
    { s with
      routeTree := s.routeTree ++ [node]
      routeNodes := s.routeNodes ++ [node] }

/-- Clearing of the aspect flags for the synthesized virtual node
(generator.ts 221-229). -/
def virtualize (node : RouteNode) : RouteNode :=
  { node with
    isVirtual := true
    isLoader := false
    isComponent := false
    isErrorComponent := false
    isPendingComponent := false
    isNotFoundComponent := false }

/-- Embedding of `handleNode` (generator.ts 176-242).  A non-virtual aspect
file is recorded in `routePiecesByPath` and, when no processed node shares
its `routePath`, a virtual copy re-enters the insertion path (a recursive
`handleNode` call in the source; the virtual node always reaches the insert
branch, so the recursion is inlined). -/
def handleNode (s : GenState) (node : RouteNode) : GenState :=
  if node.isVirtual = false ∧ isAspect node = true then
    let prepared := prepareNode s node
    let s₁ :=
      { s with routePieces :=
          s.routePieces ++ [(prepared.routePath, pieceKind prepared, prepared)] }
    if (s₁.routeNodes.find? (fun d => decide (d.routePath = node.routePath))).isSome
    then s₁
    else insertNode s₁ (virtualize node)
  else insertNode s node

/-- Fold of `handleNode` over the pre-sorted nodes (generator.ts 244). -/
def processNodes (nodes : List RouteNode) : GenState :=
  nodes.foldl handleNode {}

/-- The substring tests of the pre-sort accessors (generator.ts 155-162):
whether the file path contains `.` or `/`, then one of the keywords, then a
dot. -/
def hasSegKeyword (kws : List Str) : Str → Bool
  | [] => false
  | c :: rest =>
    ((decide (c = '.') || decide (c = '/'))
      && kws.any (fun kw => (kw ++ ['.']).isPrefixOf rest))
    || hasSegKeyword kws rest

/-- Embedding of the pre-sort and root filter over the scanned nodes
(generator.ts 152-167), with `routeFilePrefix` empty (the config default). -/
def preSortNodes (nodes : List RouteNode) : List RouteNode :=
  (multiSortBy nodes
    [fun d => some (jsNum (if d.routePath = ['/'] then -1 else 1)),
     fun d => some (jsNum ((splitOnC '/' d.routePath).length : Int)),
     fun d => some (jsNum (if hasSegKeyword [lit "index"] d.filePath then 1 else -1)),
     fun d => some (jsNum
       (if hasSegKeyword
           [lit "component", lit "errorComponent", lit "pendingComponent",
            lit "notFoundComponent", lit "loader"] d.filePath
        then 1 else -1)),
     fun d => some (jsNum (if hasSegKeyword [lit "route"] d.filePath then -1 else 1)),
     fun d => some (jsNum (if d.routePath.getLast? = some '/' then -1 else 1)),
     fun d => some (jsStr d.routePath)]).filter
    (fun d => decide (d.routePath ≠ '/' :: rootPathId))

/-- Route-tree construction phase of `generator` for a list of scanned route
files (generator.ts 152-244): derive the nodes, pre-sort, drop the root
file, and fold `handleNode`. -/
def buildRouteTree (files : List Str) : GenState :=
  processNodes (preSortNodes (files.map makeRouteNode))

theorem joinC_append_singleton (c : Char) (init : List Str) (last : Str)
    (h : init ≠ []) :
    joinC c (init ++ [last]) = joinC c init ++ c :: last := by
  induction init with
  | nil => exact absurd rfl h
  | cons x rest ih =>
    cases rest with
    | nil => simp [joinC]
    | cons y rest₂ =>
      have : joinC c ((x :: y :: rest₂) ++ [last])
          = x ++ c :: joinC c ((y :: rest₂) ++ [last]) := by
        simp [joinC]
      rw [this, ih (List.cons_ne_nil y rest₂)]
      simp [joinC]

theorem mem_multiSortBy {α β : Type} [LinearOrder β]
    {arr : List α} {accessors : List (α → Option β)} {a : α}
    (h : a ∈ multiSortBy arr accessors) : a ∈ arr :=
  ((multiSortBy_perm arr accessors).mem_iff).mp h

theorem mem_hasParentSorted {routes : List RouteNode} {r : RouteNode}
    (h : r ∈ hasParentSorted routes) : r ∈ routes := by
  unfold hasParentSorted at h
  exact mem_multiSortBy (List.mem_of_mem_filter h)

theorem isPrefixOf_bridge {l₁ l₂ : List Char} :
    l₁.isPrefixOf l₂ = true ↔ l₁ <+: l₂ :=
  List.isPrefixOf_iff_prefix

theorem hasParentRouteAux_spec (routes : List RouteNode) (fuel : Nat)
    (segs : List Str) (r : RouteNode)
    (h : hasParentRouteAux routes fuel segs = some r) :
    r ∈ routes ∧ (r.routePath ++ ['/']) <+: joinC '/' segs := by
  induction fuel generalizing segs with
  | zero => exact absurd h (by simp [hasParentRouteAux])
  | succ fuel ih =>
    rw [hasParentRouteAux] at h
    by_cases hguard : joinC '/' segs = [] ∨ joinC '/' segs = ['/']
    · rw [if_pos hguard] at h
      exact absurd h (by simp)
    · rw [if_neg hguard] at h
      rcases hfind : (hasParentSorted routes).find? (fun route =>
          decide (route.routePath ≠ ['/'])
          && (route.routePath ++ ['/']).isPrefixOf (joinC '/' segs)
          && decide (route.routePath ≠ joinC '/' segs)) with _ | found
      · rw [hfind] at h
        have hrec := ih segs.dropLast h
        refine ⟨hrec.1, ?_⟩
        have hsegs : segs ≠ [] := by
          intro hnil
          rw [hnil] at hguard
          exact hguard (Or.inl rfl)
        have hdl : segs.dropLast ≠ [] := by
          intro hnil
          rw [hnil] at hrec
          have h2 := hrec.2
          simp [joinC] at h2
        have hsplit : segs = segs.dropLast ++ [segs.getLast hsegs] :=
          (List.dropLast_append_getLast hsegs).symm
        calc r.routePath ++ ['/'] <+: joinC '/' segs.dropLast := hrec.2
          _ <+: joinC '/' segs.dropLast ++ '/' :: segs.getLast hsegs :=
            List.prefix_append _ _
          _ = joinC '/' segs := by
            rw [← joinC_append_singleton '/' segs.dropLast
              (segs.getLast hsegs) hdl, ← hsplit]
      · rw [hfind] at h
        have hfr := List.find?_some hfind
        have hmem := List.mem_of_find?_eq_some hfind
        simp only [Bool.and_eq_true, decide_eq_true_eq] at hfr
        have heq : found = r := by
          injection h
        subst heq
        refine ⟨mem_hasParentSorted hmem, ?_⟩
        exact isPrefixOf_bridge.mp hfr.1.2

theorem hasParentRoute_spec (routes : List RouteNode) (p : Str)
    (r : RouteNode) (h : hasParentRoute routes p = some r) :
    r ∈ routes ∧ (r.routePath ++ ['/']) <+: p := by
  have := hasParentRouteAux_spec routes (splitOnC '/' p).length
    (splitOnC '/' p) r h
  rw [joinC_splitOnC '/' p] at this
  exact this

theorem removeFirstOccurrence_drop (s pat : Str) (h : pat <+: s) :
    removeFirstOccurrence s pat = s.drop pat.length := by
  cases s with
  | nil =>
    have : pat = [] := List.prefix_nil.mp h
    subst this
    rfl
  | cons c rest =>
    rw [removeFirstOccurrence, if_pos (isPrefixOf_bridge.mpr h)]

theorem prepareNode_routePath (s : GenState) (n : RouteNode) :
    (prepareNode s n).routePath = n.routePath := rfl

theorem prepareNode_parentPath (s : GenState) (n : RouteNode) :
    (prepareNode s n).parentPath
      = (hasParentRoute s.routeNodes n.routePath).map (fun p => p.routePath) :=
  rfl

theorem prepareNode_path_none (s : GenState) (n : RouteNode)
    (h : hasParentRoute s.routeNodes n.routePath = none) :
    (prepareNode s n).path = n.routePath := by
  simp [prepareNode, h]

theorem prepareNode_path_some (s : GenState) (n par : RouteNode)
    (h : hasParentRoute s.routeNodes n.routePath = some par) :
    (prepareNode s n).path
      = (if removeFirstOccurrence n.routePath par.routePath = []
         then ['/'] else removeFirstOccurrence n.routePath par.routePath) := by
  simp [prepareNode, h]

theorem insertNode_routeNodes (s : GenState) (node : RouteNode) :
    (insertNode s node).routeNodes = s.routeNodes ++ [prepareNode s node] := by
  unfold insertNode
  cases h : (prepareNode s node).parentPath <;> simp [h]

/-- Parent-link invariant of the generator state (claim C8): every processed
node either has no parent and a local `path` equal to its `routePath`, or its
parent's `routePath` followed by `/` is a proper prefix of its own
`routePath`, the local `path` is the exact remainder, and the parent is
itself a processed node — so walking parent links from the root and
concatenating local paths recomposes each node's full `routePath`. -/
def parentInv (s : GenState) : Prop :=
  ∀ n ∈ s.routeNodes,
    (n.parentPath = none → n.path = n.routePath)
    ∧ ∀ pp, n.parentPath = some pp →
        (pp ++ ['/']) <+: n.routePath
        ∧ pp ≠ n.routePath
        ∧ pp ++ n.path = n.routePath
        ∧ ∃ q ∈ s.routeNodes, q.routePath = pp

theorem insertNode_inv (s : GenState) (node : RouteNode) (hs : parentInv s) :
    parentInv (insertNode s node) := by
  intro n hn
  rw [insertNode_routeNodes] at hn
  rcases List.mem_append.mp hn with hold | hnew
  · have h := hs n hold
    refine ⟨h.1, fun pp hpp => ?_⟩
    have h2 := h.2 pp hpp
    refine ⟨h2.1, h2.2.1, h2.2.2.1, ?_⟩
    obtain ⟨q, hq, hqeq⟩ := h2.2.2.2
    exact ⟨q, by rw [insertNode_routeNodes]; exact List.mem_append_left _ hq, hqeq⟩
  · have hn2 : n = prepareNode s node := List.mem_singleton.mp hnew
    subst hn2
    cases hpr : hasParentRoute s.routeNodes node.routePath with
    | none =>
      constructor
      · intro _
        rw [prepareNode_path_none s node hpr, prepareNode_routePath]
      · intro pp hpp
        rw [prepareNode_parentPath, hpr] at hpp
        exact absurd hpp (by simp)
    | some par =>
      have hspec := hasParentRoute_spec s.routeNodes node.routePath par hpr
      constructor
      · intro hnone
        rw [prepareNode_parentPath, hpr] at hnone
        exact absurd hnone (by simp)
      · intro pp hpp
        rw [prepareNode_parentPath, hpr] at hpp
        have hppe : pp = par.routePath := by
          simpa using hpp.symm
        subst hppe
        have hpre : (par.routePath ++ ['/']) <+: node.routePath := hspec.2
        obtain ⟨t, ht⟩ := hpre
        have ht2 : par.routePath ++ '/' :: t = node.routePath := by
          rw [← ht, List.append_assoc, List.singleton_append]
        have hpfx : par.routePath <+: node.routePath := ⟨'/' :: t, ht2⟩
        have hdrop : removeFirstOccurrence node.routePath par.routePath
            = '/' :: t := by
          rw [removeFirstOccurrence_drop node.routePath par.routePath
            hpfx, ← ht2, List.drop_left]
        rw [prepareNode_routePath]
        refine ⟨hspec.2, ?_, ?_, ?_⟩
        · intro hcon
          have hlen := congrArg List.length ht2
          rw [← hcon] at hlen
          simp at hlen
        · rw [prepareNode_path_some s node par hpr, hdrop,
            if_neg (List.cons_ne_nil '/' t), ht2]
        · exact ⟨par, by
            rw [insertNode_routeNodes]
            exact List.mem_append_left _ hspec.1, rfl⟩

theorem handleNode_inv (s : GenState) (node : RouteNode) (hs : parentInv s) :
    parentInv (handleNode s node) := by
  unfold handleNode
  by_cases hcond : node.isVirtual = false ∧ isAspect node = true
  · rw [if_pos hcond]
    by_cases hfind : ((s.routeNodes.find?
        (fun d => decide (d.routePath = node.routePath))).isSome : Prop)
    · simp only [hfind, if_pos]
      exact hs
    · simp only [hfind, if_neg]
      exact insertNode_inv _ (virtualize node) hs
  · rw [if_neg hcond]
    exact insertNode_inv s node hs

theorem parentInv_empty : parentInv {} := by
  intro n hn
  exact absurd hn (List.not_mem_nil n)

theorem foldl_handleNode_inv (nodes : List RouteNode) (s : GenState)
    (hs : parentInv s) : parentInv (nodes.foldl handleNode s) := by
  induction nodes generalizing s with
  | nil => exact hs
  | cons n rest ih => exact ih _ (handleNode_inv s n hs)

/-- Claim C8: every node the generator assigns a parent satisfies the
parent-link properties — the parent's `routePath` plus `/` is a prefix of the
node's `routePath`, the two paths differ, the node's local `path` is exactly
the `routePath` with the parent prefix removed, and the parent is itself a
processed node, so concatenating local paths along parent links recomposes
the full `routePath`. -/
theorem processNodes_parent_links (nodes : List RouteNode) (n : RouteNode)
    (hn : n ∈ (processNodes nodes).routeNodes) (pp : Str)
    (hp : n.parentPath = some pp) :
    (pp ++ ['/']) <+: n.routePath
    ∧ pp ≠ n.routePath
    ∧ pp ++ n.path = n.routePath
    ∧ ∃ q ∈ (processNodes nodes).routeNodes, q.routePath = pp :=
  ((foldl_handleNode_inv nodes {} parentInv_empty) n hn).2 pp hp

theorem prepareNode_isVirtual (s : GenState) (n : RouteNode) :
    (prepareNode s n).isVirtual = n.isVirtual := rfl

theorem prepareNode_isAspect (s : GenState) (n : RouteNode) :
    isAspect (prepareNode s n) = isAspect n := rfl

theorem virtualize_isVirtual (n : RouteNode) :
    (virtualize n).isVirtual = true := rfl

theorem virtualize_isAspect (n : RouteNode) : isAspect (virtualize n) = false := rfl

theorem virtualize_routePath (n : RouteNode) :
    (virtualize n).routePath = n.routePath := rfl

theorem insertNode_routePieces (s : GenState) (node : RouteNode) :
    (insertNode s node).routePieces = s.routePieces := by
  unfold insertNode
  cases h : (prepareNode s node).parentPath <;> simp [h]

/-- Claim C7: a scanned non-virtual aspect node is recorded in
`routePiecesByPath` under its `routePath` and is itself never inserted into
the route tree; when no processed node shares its `routePath`, exactly one
virtual node with that `routePath` and all aspect flags cleared is inserted
in its place, and when an anchor exists nothing is inserted at all. -/
theorem handleNode_aspect (s : GenState) (node : RouteNode)
    (hv : node.isVirtual = false) (ha : isAspect node = true) :
    (handleNode s node).routePieces
      = s.routePieces
        ++ [(node.routePath, pieceKind (prepareNode s node), prepareNode s node)]
    ∧ (∀ n ∈ (handleNode s node).routeNodes,
        n ∈ s.routeNodes
        ∨ (n.isVirtual = true ∧ isAspect n = false
            ∧ n.routePath = node.routePath))
    ∧ ((∃ d ∈ s.routeNodes, d.routePath = node.routePath) →
        (handleNode s node).routeNodes = s.routeNodes
        ∧ (handleNode s node).routeTree = s.routeTree)
    ∧ ((¬ ∃ d ∈ s.routeNodes, d.routePath = node.routePath) →
        ∃ v, (handleNode s node).routeNodes = s.routeNodes ++ [v]
          ∧ v.isVirtual = true ∧ isAspect v = false
          ∧ v.routePath = node.routePath) := by
  have hcond : node.isVirtual = false ∧ isAspect node = true := ⟨hv, ha⟩
  have hiff : ((s.routeNodes.find?
        (fun d => decide (d.routePath = node.routePath))).isSome : Prop)
      ↔ ∃ d ∈ s.routeNodes, d.routePath = node.routePath := by
    rw [List.find?_isSome]
    simp
  unfold handleNode
  rw [if_pos hcond]
  by_cases hex : ∃ d ∈ s.routeNodes, d.routePath = node.routePath
  · rw [if_pos (hiff.mpr hex)]
    refine ⟨by rw [prepareNode_routePath], ?_, ?_, ?_⟩
    · exact fun n hn => Or.inl hn
    · exact fun _ => ⟨rfl, rfl⟩
    · exact fun hcon => absurd hex hcon
  · rw [if_neg (fun hsome => hex (hiff.mp hsome))]
    refine ⟨?_, ?_, ?_, ?_⟩
    · rw [insertNode_routePieces]
      rw [prepareNode_routePath]
    · intro n hn
      rw [insertNode_routeNodes] at hn
      rcases List.mem_append.mp hn with hold | hnew
      · exact Or.inl hold
      · have : n = prepareNode _ (virtualize node) := List.mem_singleton.mp hnew
        subst this
        exact Or.inr ⟨rfl, rfl, rfl⟩
    · exact fun hcon => absurd hcon hex
    · intro _
      exact ⟨prepareNode _ (virtualize node), insertNode_routeNodes _ _,
        rfl, rfl, rfl⟩

/-- Witness for the C7 theorem: one concrete `handleNode` step on a component
file with no anchor records the piece and synthesizes one virtual node. -/
theorem handleNode_aspect_witness :
    (makeRouteNode (lit "posts/component.tsx")).isVirtual = false
    ∧ isAspect (makeRouteNode (lit "posts/component.tsx")) = true
    ∧ (handleNode {} (makeRouteNode (lit "posts/component.tsx"))).routePieces
        = [((makeRouteNode (lit "posts/component.tsx")).routePath,
            pieceKind (prepareNode {} (makeRouteNode (lit "posts/component.tsx"))),
            prepareNode {} (makeRouteNode (lit "posts/component.tsx")))] := by
  refine ⟨by decide, by decide, ?_⟩
  have h := handleNode_aspect {} (makeRouteNode (lit "posts/component.tsx"))
    (by decide) (by decide)
  exact h.1

/-- Witness for the C8 theorem at a concrete generator run: the
`/posts/$postId` node is assigned the `/posts` parent and the parent-link
properties hold there. -/
theorem processNodes_parent_links_witness :
    ∃ n ∈ (processNodes (preSortNodes
        ([lit "posts/route.tsx", lit "posts/$postId/route.tsx",
          lit "posts/index.tsx"].map makeRouteNode))).routeNodes,
      n.parentPath = some (lit "/posts")
      ∧ ((lit "/posts" ++ ['/']) <+: n.routePath
        ∧ lit "/posts" ≠ n.routePath
        ∧ lit "/posts" ++ n.path = n.routePath
        ∧ ∃ q ∈ (processNodes (preSortNodes
            ([lit "posts/route.tsx", lit "posts/$postId/route.tsx",
              lit "posts/index.tsx"].map makeRouteNode))).routeNodes,
          q.routePath = lit "/posts") := by
  obtain ⟨n, hmem, hpar⟩ : ∃ n ∈ (processNodes (preSortNodes
      ([lit "posts/route.tsx", lit "posts/$postId/route.tsx",
        lit "posts/index.tsx"].map makeRouteNode))).routeNodes,
      n.parentPath = some (lit "/posts") := by decide
  exact ⟨n, hmem, hpar, processNodes_parent_links _ n hmem _ hpar⟩

/-- Claim C6 counterexample: for the scenario files `route.tsx`, `index.tsx`
and `$id/route.tsx` the generator does not build a nested tree with `/` as
the root and `index` and `$id` as its children — `route.tsx` and `index.tsx`
both derive the same routePath `/`, no built node is assigned any parent, and
the tree ends up with three parentless top-level entries. -/
theorem scenario_tree_not_nested :
    ((buildRouteTree [lit "route.tsx", lit "index.tsx",
        lit "$id/route.tsx"]).routeNodes.map (fun n => n.routePath)
      = [lit "/", lit "/", lit "/$id"])
    ∧ ((buildRouteTree [lit "route.tsx", lit "index.tsx",
        lit "$id/route.tsx"]).routeNodes.all (fun n => n.parentPath.isNone)
      = true)
    ∧ (buildRouteTree [lit "route.tsx", lit "index.tsx",
        lit "$id/route.tsx"]).routeTree.length = 3 := by
  exact ⟨by decide, by decide, by decide⟩

/-- Claim C6 (amended): for every qualifying route file whose slashed relative
path contains no duplicate slashes, the derived routePath equals `/` plus the
relative path with its extension removed, `.` separators replaced by `/`, one
trailing aspect segment among route, component, errorComponent,
pendingComponent, notFoundComponent, loader stripped, and a bare or trailing
`index` segment normalized to `/`; the files route.tsx, index.tsx and
$id/route.tsx yield routePaths `/`, `/` and `/$id` inserted as three
parentless top-level siblings under the implicit root — not as an index child
and a dynamic child nested below `/`. -/
theorem makeRouteNode_claim (filePath : Str)
    (h : noDoubleSlash ('/' :: (removeExt filePath).map
      (fun c => if c = '.' then '/' else c)) = true) :
    (makeRouteNode filePath).routePath = claimRoutePath filePath
    ∧ ((buildRouteTree [lit "route.tsx", lit "index.tsx",
          lit "$id/route.tsx"]).routeNodes.map (fun n => n.routePath)
        = [lit "/", lit "/", lit "/$id"])
    ∧ ((buildRouteTree [lit "route.tsx", lit "index.tsx",
          lit "$id/route.tsx"]).routeNodes.all (fun n => n.parentPath.isNone)
        = true)
    ∧ (buildRouteTree [lit "route.tsx", lit "index.tsx",
        lit "$id/route.tsx"]).routeTree.length = 3 :=
  ⟨makeRouteNode_routePath_eq_claim filePath h, by decide, by decide, by decide⟩

/-- Witness for the amended C6 theorem at the concrete file
`posts/index.tsx`. -/
theorem makeRouteNode_claim_witness :
    noDoubleSlash ('/' :: (removeExt (lit "posts/index.tsx")).map
      (fun c => if c = '.' then '/' else c)) = true
    ∧ (makeRouteNode (lit "posts/index.tsx")).routePath
        = claimRoutePath (lit "posts/index.tsx") :=
  ⟨by decide, (makeRouteNode_claim (lit "posts/index.tsx") (by decide)).1⟩

/-! ### The generator write phase and task counter (generator.ts 7, 137-147,
453-478)

The module-level `latestTask` counter, the `taskId` captured at invocation
start, and the two `checkLatest` guards around the output write are embedded
as explicit values: `latestAt1` and `latestAt2` are the values of the shared
`latestTask` at the first guard (generator.ts 462) and at the second guard
(generator.ts 468; between the two sits an awaited `mkdir`, so another
invocation may bump the counter there, while the final `writeFile` follows
the second guard with no interleaving point before it).  The phase is a total
function — a stale run returns without raising. -/

/-- Result of the write phase: whether the generated file was written, and
the content of the generated route-tree file afterwards (`none` when the file
does not exist). -/
structure WriteResult where
  wrote : Bool
  file : Option Str
deriving DecidableEq, Repr

/-- Embedding of `taskId = latestTask + 1; latestTask = taskId`
(generator.ts 137-138): returns the new shared counter value and the
invocation's captured task id. -/
def startGeneratorTask (latestTask : Nat) : Nat × Nat :=
  (latestTask + 1, latestTask + 1)

/-- Embedding of the write phase of `generator` (generator.ts 453-473): read
the current file, bail if stale, skip the write when the content is
byte-identical, re-check staleness after the awaited `mkdir`, then write. -/
def generatorWritePhase (latestAt1 latestAt2 taskId : Nat)
    (current : Option Str) (generated : Str) : WriteResult :=
  if latestAt1 ≠ taskId then ⟨false, current⟩
  else if current = some generated then ⟨false, current⟩
  else if latestAt2 ≠ taskId then ⟨false, current⟩
  else ⟨true, some generated⟩

/-- Claim C1: task ids increase monotonically; an invocation that observes a
newer task id at either of its guards before its write step returns without
writing and without error (the phase is total and leaves the file as it
was); and a write happens only when the invocation is still the latest at
both guards — so only the most recent invocation's result is ever written. -/
theorem generator_stale_never_writes (latestTask latestAt1 latestAt2 taskId : Nat)
    (current : Option Str) (generated : Str) :
    (latestTask < (startGeneratorTask latestTask).1
      ∧ (startGeneratorTask latestTask).2 = (startGeneratorTask latestTask).1)
    ∧ (latestAt1 ≤ latestAt2 → taskId < latestAt2 →
        (generatorWritePhase latestAt1 latestAt2 taskId current generated).wrote
            = false
        ∧ (generatorWritePhase latestAt1 latestAt2 taskId current
            generated).file = current)
    ∧ ((generatorWritePhase latestAt1 latestAt2 taskId current
          generated).wrote = true →
        latestAt1 = taskId ∧ latestAt2 = taskId) := by
  refine ⟨⟨Nat.lt_succ_self latestTask, rfl⟩, ?_, ?_⟩
  · intro h1 h2
    unfold generatorWritePhase
    by_cases e1 : latestAt1 ≠ taskId
    · rw [if_pos e1]
      exact ⟨rfl, rfl⟩
    · rw [if_neg e1]
      push_neg at e1
      have e2 : latestAt2 ≠ taskId := by omega
      by_cases ec : current = some generated
      · rw [if_pos ec]
        exact ⟨rfl, rfl⟩
      · rw [if_neg ec, if_pos e2]
        exact ⟨rfl, rfl⟩
  · intro hw
    unfold generatorWritePhase at hw
    by_cases e1 : latestAt1 ≠ taskId
    · rw [if_pos e1] at hw
      exact Bool.noConfusion hw
    · rw [if_neg e1] at hw
      by_cases ec : current = some generated
      · rw [if_pos ec] at hw
        exact Bool.noConfusion hw
      · rw [if_neg ec] at hw
        by_cases e2 : latestAt2 ≠ taskId
        · rw [if_pos e2] at hw
          exact Bool.noConfusion hw
        · push_neg at e1 e2
          exact ⟨e1, e2⟩

/-- Witness for the C1 theorem: a run with task id 1 that observes counter
value 2 at its second guard neither writes nor changes the file. -/
theorem generator_stale_never_writes_witness :
    (1 : Nat) ≤ 2 ∧ (1 : Nat) < 2
    ∧ (generatorWritePhase 1 2 1 none (lit "x")).wrote = false
    ∧ (generatorWritePhase 1 2 1 none (lit "x")).file = none := by
  have h := generator_stale_never_writes 0 1 2 1 none (lit "x")
  exact ⟨by decide, by decide, (h.2.1 (by decide) (by decide)).1,
    (h.2.1 (by decide) (by decide)).2⟩

/-- Claim C2: the write phase of a completing (non-stale) run writes exactly
when the freshly generated content differs from the file's current content;
byte-identical content means no write and an unchanged file, so re-running on
an unchanged routes directory is a no-op on the generated file. -/
theorem generator_write_iff_changed (taskId : Nat) (current : Option Str)
    (generated : Str) :
    ((generatorWritePhase taskId taskId taskId current generated).wrote = true
      ↔ current ≠ some generated)
    ∧ (current = some generated →
        (generatorWritePhase taskId taskId taskId current generated).file
          = current
        ∧ (generatorWritePhase taskId taskId taskId current generated).wrote
          = false)
    ∧ (current ≠ some generated →
        (generatorWritePhase taskId taskId taskId current generated).file
          = some generated) := by
  unfold generatorWritePhase
  rw [if_neg (fun hne => hne rfl)]
  by_cases ec : current = some generated
  · rw [if_pos ec]
    refine ⟨?_, fun _ => ⟨rfl, rfl⟩, fun hne => absurd ec hne⟩
    constructor
    · intro hw
      exact Bool.noConfusion hw
    · intro hne
      exact absurd ec hne
  · rw [if_neg ec, if_neg (fun hne => hne rfl)]
    exact ⟨⟨fun _ => ec, fun _ => rfl⟩, fun hc => absurd hc ec, fun _ => rfl⟩

/-- Witness for the C2 theorem: with differing content the file is written,
with identical content the file is left untouched. -/
theorem generator_write_iff_changed_witness :
    some (lit "x") ≠ some (lit "y")
    ∧ (generatorWritePhase 3 3 3 (some (lit "x")) (lit "y")).wrote = true
    ∧ (generatorWritePhase 3 3 3 (some (lit "x")) (lit "x")).file
        = some (lit "x")
    ∧ (generatorWritePhase 3 3 3 (some (lit "x")) (lit "x")).wrote = false := by
  have h := generator_write_iff_changed 3 (some (lit "x")) (lit "y")
  have h2 := generator_write_iff_changed 3 (some (lit "x")) (lit "x")
  exact ⟨by decide, h.1.mpr (by decide), (h2.2.1 rfl).1, (h2.2.1 rfl).2⟩

/-! ### useBlocker (react-router `useBlocker`, lines 27-80)

The hook state is the resolver status, the pending promise (settled at most
once: resolving an already-settled JavaScript promise is a no-op), and a
promise generation counter bumped each time `setPromise(createPromise)`
installs a fresh promise, whose executor resets the resolver to idle. -/

/-- Resolver status of `useBlocker` (line 7). -/
inductive BlockerStatus
  | idle
  | blocked
deriving DecidableEq, Repr

/-- State of the `useBlocker` hook. -/
structure BlockerHook where
  status : BlockerStatus
  promise : Option Bool
  generation : Nat
deriving DecidableEq, Repr

/-- Initial hook state (useBlocker 41-56): idle resolver, fresh pending
promise. -/
def initBlocker : BlockerHook := ⟨.idle, none, 0⟩

/-- Settle a promise: the first `resolve` wins, a later one is a no-op. -/
def resolvePromise (p : Option Bool) (b : Bool) : Option Bool :=
  match p with
  | none => some b
  | some v => some v

/-- Entry of the composed blocker when no `blockerFn` was supplied
(useBlocker 59-69): the resolver status becomes `blocked` and the hook then
awaits the promise. -/
def blockerFire (s : BlockerHook) : BlockerHook :=
  { s with status := .blocked }

/-- The `proceed` callback of the pending promise (useBlocker 51): resolve
with `true`. -/
def blockerProceed (s : BlockerHook) : BlockerHook :=
  { s with promise := resolvePromise s.promise true }

/-- The `reset` callback of the pending promise (useBlocker 52): resolve
with `false`. -/
def blockerReset (s : BlockerHook) : BlockerHook :=
  { s with promise := resolvePromise s.promise false }

/-- Resumption of the composed blocker once the awaited promise settles
(useBlocker 69-73): return the settled value while
`setPromise(createPromise)` installs a fresh pending promise whose executor
resets the resolver to idle; `none` while the promise is still pending. -/
def blockerResume (s : BlockerHook) : Option (Bool × BlockerHook) :=
  s.promise.map (fun b => (b, ⟨.idle, none, s.generation + 1⟩))

/-- Modelled from the spec: the history backend (`@tanstack/history`, an
external collaborator absent from the sources) commits the pending
navigation when the composed blocker returns `true` and leaves the committed
location unchanged when it returns `false`. -/
def applyBlockerResult (canNavigate : Bool) (current target : Str) : Str :=
  if canNavigate then target else current

/-- Claim C3: for a blocker created without `blockerFn`, firing sets the
resolver status to `blocked`; the awaited promise is settled exactly once —
`proceed` resolves it with `true`, `reset` with `false`, and a second
`proceed`/`reset` is a no-op; once settled, the composed blocker resumes
with the settled value and a fresh pending promise replaces the settled one
with the resolver back at idle; a `true` result lets the pending navigation
commit and a `false` result leaves the committed location unchanged. -/
theorem useBlocker_resolver_contract (s : BlockerHook) (current target : Str)
    (hpending : s.promise = none) :
    (blockerFire s).status = BlockerStatus.blocked
    ∧ (blockerProceed (blockerFire s)).promise = some true
    ∧ (blockerReset (blockerFire s)).promise = some false
    ∧ (∀ f g : BlockerHook → BlockerHook,
        (f = blockerProceed ∨ f = blockerReset) →
        (g = blockerProceed ∨ g = blockerReset) →
        (g (f (blockerFire s))).promise = (f (blockerFire s)).promise)
    ∧ blockerResume (blockerProceed (blockerFire s))
        = some (true, ⟨BlockerStatus.idle, none, s.generation + 1⟩)
    ∧ blockerResume (blockerReset (blockerFire s))
        = some (false, ⟨BlockerStatus.idle, none, s.generation + 1⟩)
    ∧ applyBlockerResult true current target = target
    ∧ applyBlockerResult false current target = current := by
  refine ⟨rfl, ?_, ?_, ?_, ?_, ?_, rfl, rfl⟩
  · simp [blockerProceed, blockerFire, resolvePromise, hpending]
  · simp [blockerReset, blockerFire, resolvePromise, hpending]
  · intro f g hf hg
    rcases hf with hf | hf <;> rcases hg with hg | hg <;> subst hf <;> subst hg <;>
      simp [blockerProceed, blockerReset, blockerFire, resolvePromise, hpending]
  · simp [blockerResume, blockerProceed, blockerFire, resolvePromise, hpending]
  · simp [blockerResume, blockerReset, blockerFire, resolvePromise, hpending]

/-- Witness for the C3 theorem at the freshly mounted hook state. -/
theorem useBlocker_resolver_contract_witness :
    initBlocker.promise = none
    ∧ (blockerFire initBlocker).status = BlockerStatus.blocked
    ∧ (blockerProceed (blockerFire initBlocker)).promise = some true
    ∧ applyBlockerResult false (lit "/a") (lit "/b") = lit "/a" := by
  have h := useBlocker_resolver_contract initBlocker (lit "/a") (lit "/b") rfl
  exact ⟨rfl, h.1, h.2.1, h.2.2.2.2.2.2.2⟩

/-! ### Rendered matches and their accessors (Matches.tsx) -/

/-- Match status (Matches.tsx 34). -/
inductive MatchStatus
  | pending
  | success
  | error
deriving DecidableEq, Repr

/-- Runtime error values thrown while rendering: a not-found signal
(`notFound({global, data})` per the spec's error taxonomy,
`NotFoundError carries {global: bool, data}`) or an arbitrary error. -/
inductive JsErr
  | notFoundErr (globalFlag : Bool) (data : Option Str)
  | plainErr (msg : Str)
deriving DecidableEq, Repr

/-- Modelled from the spec: `isNotFound` from the not-found module (absent
from the sources) recognizes exactly the not-found signals. -/
def isNotFound : JsErr → Bool
  | .notFoundErr _ _ => true
  | .plainErr _ => false

/-- Modelled from the spec: `throwGlobalNotFoundRouteId`, exported by the
router module (absent from the sources), is the reserved route id of the
global not-found pseudo-match; only its distinctness from real route ids
matters. -/
def throwGlobalNotFoundRouteId : Str := lit "__throwGlobalNotFound__"

/-- Modelled from the spec: `rootRouteId` from the route module (absent from
the sources), the reserved id of the root route. -/
def rootRouteId : Str := lit "__root__"

/-- The slice of a route match that the rendering layer reads
(Matches.tsx 26-54; `MatchInner` picks `status`, `error`, `showPending`,
`loadPromise`). -/
structure MatchSnap where
  id : Str
  routeId : Str
  status : MatchStatus
  error : JsErr := .plainErr []
  showPending : Bool := false
deriving DecidableEq, Repr

/-- The slice of `RouterState` that the accessors in Matches.tsx read; the
source field `matches` is called `matchList` here because `matches` is a
reserved word in Lean. -/
structure RouterStateM where
  matchList : List MatchSnap
  pendingMatches : Option (List MatchSnap) := none
deriving DecidableEq, Repr

/-- Embedding of `getRenderedMatches` (Matches.tsx 329-333):
`state.pendingMatches?.some(d => d.showPending) ? state.pendingMatches :
state.matches`. -/
def getRenderedMatches (s : RouterStateM) : List MatchSnap :=
  match s.pendingMatches with
  | some pm => if pm.any (fun d => d.showPending) then pm else s.matchList
  | none => s.matchList

/-- Selector of `Matches` (Matches.tsx 60-64): the first rendered match id. -/
def matchesSelector (s : RouterStateM) : Option Str :=
  (getRenderedMatches s).head?.map (fun d => d.id)

/-- Selector of `Match` (Matches.tsx 90-98): the match's `routeId` and
whether some rendered match carries the global not-found route id. -/
def matchSelector (s : RouterStateM) (matchId : Str) : Option Str × Bool :=
  ((getRenderedMatches s).find? (fun d => decide (d.id = matchId))
      |>.map (fun d => d.routeId),
   (getRenderedMatches s).any
     (fun m => decide (m.routeId = throwGlobalNotFoundRouteId)))

/-- Selector of `MatchInner` (Matches.tsx 185-200): the match picked by id. -/
def matchInnerSelector (s : RouterStateM) (matchId : Str) : Option MatchSnap :=
  (getRenderedMatches s).find? (fun d => decide (d.id = matchId))

/-- Selector of `Outlet` (Matches.tsx 232-238): the id of the match after
the context match; a JS `findIndex` miss yields `-1`, so `matches[0]` is
read in that case. -/
def outletSelector (s : RouterStateM) (matchId : Option Str) : Option Str :=
  let ms := getRenderedMatches s
  let index : Int :=
    match ms.findIdx? (fun d => decide (some d.id = matchId)) with
    | some i => (i : Int)
    | none => -1
  (ms.get? (index + 1).toNat).map (fun d => d.id)

/-- Selector core of `useMatch` (Matches.tsx 374-391): find the nearest match
by id among the rendered matches. -/
def useMatchSelector (s : RouterStateM) (nearestMatchId : Option Str) :
    Option MatchSnap :=
  (getRenderedMatches s).find? (fun d => decide (some d.id = nearestMatchId))

/-- Selector of `useMatches` (Matches.tsx 396-405). -/
def useMatchesSelector (s : RouterStateM) : List MatchSnap :=
  getRenderedMatches s

/-- Selector of `useParentMatches` (Matches.tsx 407-418): `slice` from the
index of the context match; a JS `findIndex` miss yields `slice(-1)`, the
last element. -/
def useParentMatchesSelector (s : RouterStateM) (contextMatchId : Option Str) :
    List MatchSnap :=
  let ms := getRenderedMatches s
  match ms.findIdx? (fun d => decide (some d.id = contextMatchId)) with
  | some i => ms.drop i
  | none => ms.drop (ms.length - 1)

/-- Claim C9: `getRenderedMatches` returns `pendingMatches` exactly when it
is present and some pending match has `showPending` set, and `matches`
otherwise; and every rendering accessor reads the match list only through
this selection — two states with the same selection are indistinguishable to
all of them, so the UI switches to the in-flight set only after some pending
match passed its pending-display delay. -/
theorem getRenderedMatches_claim (s s₁ s₂ : RouterStateM)
    (matchId : Str) (ctx : Option Str) :
    (∀ pm, s.pendingMatches = some pm →
      pm.any (fun d => d.showPending) = true → getRenderedMatches s = pm)
    ∧ ((∀ pm, s.pendingMatches = some pm →
        pm.any (fun d => d.showPending) = false) →
      getRenderedMatches s = s.matchList)
    ∧ (getRenderedMatches s₁ = getRenderedMatches s₂ →
        matchesSelector s₁ = matchesSelector s₂
        ∧ matchSelector s₁ matchId = matchSelector s₂ matchId
        ∧ matchInnerSelector s₁ matchId = matchInnerSelector s₂ matchId
        ∧ outletSelector s₁ ctx = outletSelector s₂ ctx
        ∧ useMatchSelector s₁ ctx = useMatchSelector s₂ ctx
        ∧ useMatchesSelector s₁ = useMatchesSelector s₂
        ∧ useParentMatchesSelector s₁ ctx = useParentMatchesSelector s₂ ctx) := by
  refine ⟨?_, ?_, ?_⟩
  · intro pm hpm hany
    simp [getRenderedMatches, hpm, hany]
  · intro hall
    unfold getRenderedMatches
    cases hpm : s.pendingMatches with
    | none => rfl
    | some pm =>
      show (if (pm.any fun d => d.showPending) = true then pm else s.matchList)
          = s.matchList
      rw [hall pm hpm]
      simp
  · intro heq
    unfold matchesSelector matchSelector matchInnerSelector outletSelector
      useMatchSelector useMatchesSelector useParentMatchesSelector
    rw [heq]
    exact ⟨rfl, rfl, rfl, rfl, rfl, rfl, rfl⟩

/-- Witness for the C9 theorem: a state whose pending set has a match past
its pending delay renders the pending set; one without renders the committed
set. -/
theorem getRenderedMatches_claim_witness :
    getRenderedMatches
        ⟨[⟨lit "a", lit "ra", MatchStatus.success, .plainErr [], false⟩],
         some [⟨lit "b", lit "rb", MatchStatus.pending, .plainErr [], true⟩]⟩
      = [⟨lit "b", lit "rb", MatchStatus.pending, .plainErr [], true⟩]
    ∧ getRenderedMatches
        ⟨[⟨lit "a", lit "ra", MatchStatus.success, .plainErr [], false⟩],
         some [⟨lit "b", lit "rb", MatchStatus.pending, .plainErr [], false⟩]⟩
      = [⟨lit "a", lit "ra", MatchStatus.success, .plainErr [], false⟩] := by
  constructor
  · exact (getRenderedMatches_claim
      ⟨[⟨lit "a", lit "ra", MatchStatus.success, .plainErr [], false⟩],
       some [⟨lit "b", lit "rb", MatchStatus.pending, .plainErr [], true⟩]⟩
      ⟨[], none⟩ ⟨[], none⟩ [] none).1 _ rfl (by decide)
  · exact (getRenderedMatches_claim
      ⟨[⟨lit "a", lit "ra", MatchStatus.success, .plainErr [], false⟩],
       some [⟨lit "b", lit "rb", MatchStatus.pending, .plainErr [], false⟩]⟩
      ⟨[], none⟩ ⟨[], none⟩ [] none).2.1 (by
        intro pm hpm
        injection hpm with hpm2
        rw [← hpm2]
        decide)

/-! ### Match rendering, error and not-found boundaries (Matches.tsx 88-227)

Components are embedded as string labels.  The boundary components
`CatchBoundary` and `CatchNotFound` live in modules that are not among the
sources; per the spec's error-propagation design (§7), a catch boundary
handles thrown errors with its error component and a not-found boundary
handles not-found signals, letting everything else pass — with the `onCatch`
rethrow of not-found errors and the fallback rethrow conditions exactly as
written in Matches.tsx 152-167. -/

/-- The per-route options `Match` reads (Matches.tsx 113-135). -/
structure RouteOpts where
  isRoot : Bool := false
  component : Option Str := none
  errorComponent : Option Str := none
  pendingComponent : Option Str := none
  notFoundComponent : Option Str := none
deriving DecidableEq, Repr

/-- The router-level fallbacks `Match` reads (Matches.tsx 113-127). -/
structure RouterOpts where
  defaultComponent : Option Str := none
  defaultErrorComponent : Option Str := none
  defaultPendingComponent : Option Str := none
  notFoundRouteComponent : Option Str := none
deriving DecidableEq, Repr

/-- Outcome of rendering one match subtree: rendered UI, an error thrown
onward to the ancestors, or a suspension on the match's load promise. -/
inductive RenderResult
  | ui (content : Str)
  | thrown (e : JsErr)
  | suspended
deriving DecidableEq, Repr

/-- Embedding of the not-found component resolution (Matches.tsx 123-127):
at the root, `notFoundComponent` falls back to the configured
`notFoundRoute` component. -/
def resolvedNotFoundComponent (route : RouteOpts) (ropts : RouterOpts) :
    Option Str :=
  if route.isRoot
  then route.notFoundComponent.or ropts.notFoundRouteComponent
  else route.notFoundComponent

/-- Embedding of the error component resolution (Matches.tsx 118-121):
route option, then router default, then the library `ErrorComponent`. -/
def resolvedErrorComponent (route : RouteOpts) (ropts : RouterOpts) : Str :=
  (route.errorComponent.or ropts.defaultErrorComponent).getD
    (lit "ErrorComponent")

/-- Embedding of `MatchInner` (Matches.tsx 177-227): an `error` match throws
its error; a `pending` match renders the pending element once `showPending`
is set and otherwise suspends on its load promise; a `success` match renders
the route component (falling back to the router default) or its `Outlet`,
and a throw or suspension arising from the child subtree inside it
propagates upward. -/
def matchInner (m : MatchSnap) (route : RouteOpts) (ropts : RouterOpts)
    (pendingElement : Str) (child : RenderResult) : RenderResult :=
  match m.status with
  | .error => .thrown m.error
  | .pending => if m.showPending then .ui pendingElement else .suspended
  | .success =>
    match child with
    | .thrown e => .thrown e
    | .suspended => .suspended
    | .ui childContent =>
      match route.component.or ropts.defaultComponent with
      | some c => .ui c
      | none => .ui childContent

/-- Embedding of the not-found boundary of one `Match` (`CatchNotFound` with
the fallback at Matches.tsx 158-167; mounted only when the resolved
not-found component exists): it renders that component for a not-found
signal unless the signal is global and the route is not the root, in which
case the error is rethrown; everything else passes through. -/
def notFoundBoundary (route : RouteOpts) (ropts : RouterOpts)
    (inner : RenderResult) : RenderResult :=
  match inner, resolvedNotFoundComponent route ropts with
  | .thrown (.notFoundErr g d), some nfc =>
    if g = true ∧ route.isRoot = false
    then .thrown (.notFoundErr g d)
    else .ui nfc
  | r, _ => r

/-- Embedding of the catch boundary of one `Match` (`CatchBoundary` with the
resolved error component, Matches.tsx 149-156): it renders the error
component for a thrown error, except that its `onCatch` forwards not-found
errors up the tree. -/
def catchBoundary (route : RouteOpts) (ropts : RouterOpts)
    (inner : RenderResult) : RenderResult :=
  match inner with
  | .thrown e =>
    if isNotFound e then .thrown e
    else .ui (resolvedErrorComponent route ropts)
  | r => r

/-- The boundary stack of one `Match` (Matches.tsx 142-172): the not-found
boundary sits inside the catch boundary. -/
def matchBoundaries (route : RouteOpts) (ropts : RouterOpts)
    (inner : RenderResult) : RenderResult :=
  catchBoundary route ropts (notFoundBoundary route ropts inner)

/-- Embedding of the `Match` chain (Matches.tsx 88-175 with `Outlet` linking
consecutive rendered matches): when a global not-found is present in the
rendered set, every non-root match throws `notFound({global: true})` before
its boundaries mount (Matches.tsx 107-111); otherwise the match renders
`MatchInner` inside its boundary stack with the next match as its child
subtree. -/
def renderChain (ropts : RouterOpts) (routes : Str → RouteOpts)
    (hasGlobalNotFound : Bool) (pendingElement : Str) :
    List MatchSnap → RenderResult
  | [] => .ui []
  | m :: rest =>
    if hasGlobalNotFound = true ∧ m.routeId ≠ rootRouteId
    then .thrown (.notFoundErr true none)
    else
      matchBoundaries (routes m.routeId) ropts
        (matchInner m (routes m.routeId) ropts pendingElement
          (renderChain ropts routes hasGlobalNotFound pendingElement rest))

/-- Modelled from the spec: the loader orchestration (spec §4.4-4.5; the
router core module is absent from the sources) stops invoking loaders once
one throws a global not-found signal, skipping all descendants. -/
inductive LoaderSig
  | ok
  | nf (globalFlag : Bool)
  | err
deriving DecidableEq, Repr

/-- Modelled from the spec: run the loaders of a match chain root-to-leaf,
stopping at a global not-found. -/
def runLoaders : List LoaderSig → List LoaderSig
  | [] => []
  | l :: rest =>
    match l with
    | .nf true => [.nf true]
    | x => x :: runLoaders rest

/-- Claim C4: when the rendered match set contains the global-not-found
route id, every rendered non-root match throws `notFound({global: true})`,
so handling propagates to the root; the root (a success match whose child
subtree throws that signal) renders its resolved not-found component —
`notFoundComponent` with fallback to the configured `notFoundRoute`
component; and loaders after a global not-found signal are skipped rather
than run (loader part modelled from the spec). -/
theorem globalNotFound_renders_at_root (ropts : RouterOpts)
    (routes : Str → RouteOpts) (pendingElement nfc : Str)
    (rootSnap m₂ : MatchSnap) (rest : List MatchSnap)
    (post : List LoaderSig) :
    (∀ (m : MatchSnap) (tail : List MatchSnap), m.routeId ≠ rootRouteId →
      renderChain ropts routes true pendingElement (m :: tail)
        = .thrown (.notFoundErr true none))
    ∧ (rootSnap.routeId = rootRouteId →
       rootSnap.status = MatchStatus.success →
       m₂.routeId ≠ rootRouteId →
       (routes rootRouteId).isRoot = true →
       resolvedNotFoundComponent (routes rootRouteId) ropts = some nfc →
       renderChain ropts routes true pendingElement (rootSnap :: m₂ :: rest)
         = .ui nfc)
    ∧ runLoaders (.nf true :: post) = [.nf true] := by
  refine ⟨?_, ?_, rfl⟩
  · intro m tail hm
    unfold renderChain
    rw [if_pos ⟨rfl, hm⟩]
  · intro hroot hsucc hm₂ hisroot hnfc
    have hchild : renderChain ropts routes true pendingElement (m₂ :: rest)
        = .thrown (.notFoundErr true none) := by
      unfold renderChain
      rw [if_pos ⟨rfl, hm₂⟩]
    unfold renderChain
    rw [if_neg (fun hcon => hcon.2 hroot), hchild, hroot]
    unfold matchInner
    rw [hsucc]
    show matchBoundaries (routes rootRouteId) ropts
      (.thrown (.notFoundErr true none)) = .ui nfc
    unfold matchBoundaries notFoundBoundary catchBoundary
    rw [hnfc]
    simp [hisroot]

/-- Witness for the C4 theorem at a concrete router configuration. -/
theorem globalNotFound_renders_at_root_witness :
    renderChain { notFoundRouteComponent := some (lit "NF") }
      (fun rid => if rid = rootRouteId then { isRoot := true } else {})
      true (lit "pending")
      [⟨lit "r", rootRouteId, MatchStatus.success, .plainErr [], false⟩,
       ⟨lit "x", throwGlobalNotFoundRouteId, MatchStatus.success,
         .plainErr [], false⟩]
      = .ui (lit "NF") := by
  have h := (globalNotFound_renders_at_root
    { notFoundRouteComponent := some (lit "NF") }
    (fun rid => if rid = rootRouteId then { isRoot := true } else {})
    (lit "pending") (lit "NF")
    ⟨lit "r", rootRouteId, MatchStatus.success, .plainErr [], false⟩
    ⟨lit "x", throwGlobalNotFoundRouteId, MatchStatus.success,
      .plainErr [], false⟩
    [] []).2.1
  exact h rfl rfl (by decide) (by decide) (by decide)

/-- Claim C5: a rendered match whose status is `error` with a non-not-found
error rethrows it from `MatchInner`, and that same match's catch boundary
renders the resolved error component, so the match subtree yields rendered
UI rather than a propagating throw — an ancestor success match over a
rendered-UI child renders normally; a not-found error is instead forwarded
up the chain (when the route resolves no not-found component, or the signal
is global at a non-root route) rather than shown through the error
component. -/
theorem loader_error_isolated (route : RouteOpts) (ropts : RouterOpts)
    (m : MatchSnap) (pendingElement : Str) (child : RenderResult)
    (e : JsErr) (hstatus : m.status = MatchStatus.error)
    (herr : m.error = e) :
    (isNotFound e = false →
      matchInner m route ropts pendingElement child = .thrown e
      ∧ matchBoundaries route ropts (.thrown e)
          = .ui (resolvedErrorComponent route ropts))
    ∧ (∀ g d, e = .notFoundErr g d →
        resolvedNotFoundComponent route ropts = none →
        matchBoundaries route ropts (.thrown e) = .thrown e)
    ∧ (∀ d, e = .notFoundErr true d →
        route.isRoot = false →
        matchBoundaries route ropts (.thrown e) = .thrown e)
    ∧ (∀ (p : MatchSnap) (proute : RouteOpts) (c : Str),
        p.status = MatchStatus.success →
        ∃ out, matchInner p proute ropts pendingElement (.ui c) = .ui out
          ∧ matchBoundaries proute ropts (.ui out) = .ui out) := by
  refine ⟨?_, ?_, ?_, ?_⟩
  · intro hnf
    constructor
    · unfold matchInner
      rw [hstatus, herr]
    · cases e with
      | notFoundErr g d => simp [isNotFound] at hnf
      | plainErr msg =>
        simp [matchBoundaries, notFoundBoundary, catchBoundary, isNotFound]
  · intro g d he hnone
    subst he
    simp [matchBoundaries, notFoundBoundary, catchBoundary, isNotFound, hnone]
  · intro d he hnotroot
    subst he
    cases hre : resolvedNotFoundComponent route ropts with
    | none =>
      simp [matchBoundaries, notFoundBoundary, catchBoundary, isNotFound, hre]
    | some nfc =>
      simp [matchBoundaries, notFoundBoundary, catchBoundary, isNotFound,
        hre, hnotroot]
  · intro p proute c hsucc
    unfold matchInner
    rw [hsucc]
    cases hc : proute.component.or ropts.defaultComponent with
    | none =>
      refine ⟨c, rfl, ?_⟩
      simp [matchBoundaries, notFoundBoundary, catchBoundary]
    | some cc =>
      refine ⟨cc, rfl, ?_⟩
      simp [matchBoundaries, notFoundBoundary, catchBoundary]

/-- Witness for the C5 theorem: a loader error at one match renders that
match's error component. -/
theorem loader_error_isolated_witness :
    matchBoundaries { errorComponent := some (lit "Err") } {}
        (.thrown (.plainErr (lit "boom")))
      = .ui (lit "Err") := by
  have h := loader_error_isolated { errorComponent := some (lit "Err") } {}
    ⟨lit "m", lit "rm", MatchStatus.error, .plainErr (lit "boom"), false⟩
    (lit "pending") (.ui []) (.plainErr (lit "boom")) rfl rfl
  have h2 := (h.1 (by decide)).2
  calc matchBoundaries { errorComponent := some (lit "Err") } {}
        (.thrown (.plainErr (lit "boom")))
      = .ui (resolvedErrorComponent { errorComponent := some (lit "Err") } {}) := h2
    _ = .ui (lit "Err") := by decide
